import Mathlib

/-!
Verification of the outlives-predicate collection pass of
`librustc_typeck/outlives/utils.rs`.

The file embeds the two functions of that source file —
`insert_outlives_predicate` (the Predicate Collector) and `is_free_region`
(the Region Classifier) — as Lean functions, together with the data model
they operate on (`RegionKind`, `Component`, `Kind`, `OutlivesPredicate`,
and the ordered `RequiredPredicates` set), and proves the stated
properties of the pass.
-/

namespace Outlives

/-- The region variants of `rustc::ty::RegionKind`, exactly the
constructors matched by `is_free_region` in the source.  Identifiers,
binder depths and scopes are abstracted to natural numbers. -/
inductive RegionKind where
  | ReStatic
  | ReEarlyBound (index : Nat)
  | ReLateBound (debruijn : Nat) (br : Nat)
  | ReEmpty
  | ReErased
  | ReClosureBound (v : Nat)
  | ReCanonical (v : Nat)
  | ReScope (scope : Nat)
  | ReVar (vid : Nat)
  | ReSkolemized (ui : Nat) (br : Nat)
  | ReFree (scope : Nat) (br : Nat)
deriving DecidableEq

/-- Modelled from the spec: an associated-type reference (`ProjectionTy`),
carrying an item definition id and an abstracted substitution list. -/
structure ProjectionTy where
  item_def_id : Nat
  substs : Nat
deriving DecidableEq

/-- The atomic components produced by decomposing a type
(`rustc::ty::outlives::Component`), exactly the constructors matched by
the loop of `insert_outlives_predicate`. -/
inductive Component where
  | Region (r : RegionKind)
  | Param (p : Nat)
  | Projection (proj : ProjectionTy)
  | EscapingProjection (proj : ProjectionTy)
  | UnresolvedInferenceVariable (v : Nat)
deriving DecidableEq

/-- Modelled from the spec: declaration-time types.  The Type Decomposer
is an external oracle ("decompose(type) -> ordered sequence of
Component — deterministic, total over declaration-time types"), so a
declared type carries its decomposition directly; `TyParam` is the
atomic type built from a type parameter (`param_ty.to_ty`), and
`TyProjection` the non-normalized projection type (`mk_projection`). -/
inductive Ty where
  | TyParam (p : Nat)
  | TyProjection (item_def_id : Nat) (substs : Nat)
  | TyDecl (components : List Component)
deriving DecidableEq

/-- Modelled from the spec: the external Type Decomposer.  A declared
type yields the component sequence it carries; the atomic types built by
the collector itself decompose to their single atomic component. -/
def outlives_components : Ty → List Component
  | .TyParam p => [.Param p]
  | .TyProjection d s => [.Projection ⟨d, s⟩]
  | .TyDecl cs => cs

/-- A generic substitution argument (`Kind` / `UnpackedKind` in the
source): `TypeValue` is `UnpackedKind::Type`, `RegionValue` is
`UnpackedKind::Lifetime`. -/
inductive Kind where
  | TypeValue (ty : Ty)
  | RegionValue (r : RegionKind)
deriving DecidableEq

/-- `ty::OutlivesPredicate<Kind, Region>`: the pair "fst must outlive
snd". -/
structure OutlivesPredicate where
  fst : Kind
  snd : RegionKind
deriving DecidableEq

/-- The two `bug!` sites of the source file, re-modelled (as the spec
directs) as a typed failure: `unexpected_region` is the Region
Classifier's fatal path ("unexpected region in outlives inference"),
`not_using_infcx` the fatal path for unresolved inference components
("not using infcx"). -/
inductive Bug where
  | unexpected_region (r : RegionKind)
  | not_using_infcx
deriving DecidableEq

/-- Three-way comparison on naturals, the base of the structural sort
key of the ordered predicate set. -/
def natCmp (a b : Nat) : Ordering :=
  if a < b then .lt else if a = b then .eq else .gt

/-- Lexicographic comparison of sort keys. -/
def lexCmp : List Nat → List Nat → Ordering
  | [], [] => .eq
  | [], _ :: _ => .lt
  | _ :: _, [] => .gt
  | a :: as, b :: bs =>
    match natCmp a b with
    | .eq => lexCmp as bs
    | ord => ord

/-- Structural sort key of a region. -/
def RegionKind.encode : RegionKind → List Nat
  | .ReStatic => [0]
  | .ReEarlyBound i => [1, i]
  | .ReLateBound d b => [2, d, b]
  | .ReEmpty => [3]
  | .ReErased => [4]
  | .ReClosureBound v => [5, v]
  | .ReCanonical v => [6, v]
  | .ReScope s => [7, s]
  | .ReVar v => [8, v]
  | .ReSkolemized u b => [9, u, b]
  | .ReFree s b => [10, s, b]

/-- Structural sort key of a component. -/
def Component.encode : Component → List Nat
  | .Region r => 0 :: r.encode
  | .Param p => [1, p]
  | .Projection pr => [2, pr.item_def_id, pr.substs]
  | .EscapingProjection pr => [3, pr.item_def_id, pr.substs]
  | .UnresolvedInferenceVariable v => [4, v]

/-- Structural sort key of a type. -/
def Ty.encode : Ty → List Nat
  | .TyParam p => [0, p]
  | .TyProjection d s => [1, d, s]
  | .TyDecl cs => 2 :: cs.length :: cs.foldr (fun c acc => c.encode ++ acc) []

/-- Structural sort key of a substitution argument. -/
def Kind.encode : Kind → List Nat
  | .TypeValue ty => 0 :: ty.encode
  | .RegionValue r => 1 :: r.encode

/-- Structural sort key of an outlives predicate; the ordered set is
sorted by this key, giving the canonical iteration order of the
`BTreeSet` in the source. -/
def OutlivesPredicate.encode (p : OutlivesPredicate) : List Nat :=
  p.fst.encode ++ p.snd.encode

/-- `RequiredPredicates`: the `BTreeSet` of the source (a transparent
type alias there as well), modelled as a list sorted strictly by the
structural sort key. -/
abbrev RequiredPredicates : Type := List OutlivesPredicate

/-- Ordered-set insertion (`BTreeSet::insert`): place the new predicate
at its sorted position, a no-op when a predicate with the same key is
already present. -/
def insertPred (p : OutlivesPredicate) : List OutlivesPredicate → List OutlivesPredicate
  | [] => [p]
  | q :: qs =>
    match lexCmp p.encode q.encode with
    | .lt => p :: q :: qs
    | .eq => q :: qs
    | .gt => q :: insertPred p qs

/-- The Region Classifier `is_free_region`: `ReStatic` and
`ReEarlyBound` are free, `ReLateBound` is not free, and every other
variant is the fatal path (`bug!("unexpected region in outlives
inference")`). -/
def is_free_region : RegionKind → Except Bug Bool
  | .ReStatic => .ok true
  | .ReEarlyBound _ => .ok true
  | .ReLateBound _ _ => .ok false
  | r => .error (.unexpected_region r)

/-- Recursion measure for the collector: the single recursive call
passes a `RegionValue`, which itself recurses no further. -/
def Kind.weight : Kind → Nat
  | .TypeValue _ => 2
  | .RegionValue _ => 0

mutual

/-- The Predicate Collector `insert_outlives_predicate`: given a
requirement `kind: 'outlived_region`, deduce the outlives components
and add them to `required_predicates`.  The `&mut` set is threaded
explicitly; the `bug!` panics become `Except.error`. -/
def insert_outlives_predicate (kind : Kind) (outlived_region : RegionKind)
    (required_predicates : RequiredPredicates) : Except Bug RequiredPredicates :=
  (is_free_region outlived_region).bind fun free =>
    -- If the `'a` region is bound within the field type itself, we
    -- don't want to propagate this constraint to the header.
    if !free then
      .ok required_predicates
    else
      match kind with
      | .TypeValue ty =>
        (outlives_components ty).foldl
          (fun acc component => insert_component outlived_region acc component)
          (.ok required_predicates)
      | .RegionValue r =>
        (is_free_region r).bind fun rfree =>
          if !rfree then
            .ok required_predicates
          else
            .ok (insertPred ⟨kind, outlived_region⟩ required_predicates)
termination_by kind.weight
decreasing_by simp [Kind.weight]

/-- One iteration of the component loop of `insert_outlives_predicate`:
`Component::Region` recurses with a `RegionValue` kind, `Param` and
`Projection` insert directly, `EscapingProjection` is ignored, and
`UnresolvedInferenceVariable` is the fatal path `bug!("not using
infcx")`. -/
def insert_component (outlived_region : RegionKind)
    (acc : Except Bug RequiredPredicates) (component : Component) :
    Except Bug RequiredPredicates :=
  match acc with
  | .error b => .error b
  | .ok required_predicates =>
    match component with
    | .Region r =>
      insert_outlives_predicate (.RegionValue r) outlived_region required_predicates
    | .Param param_ty =>
      .ok (insertPred ⟨.TypeValue (.TyParam param_ty), outlived_region⟩ required_predicates)
    | .Projection proj_ty =>
      .ok (insertPred ⟨.TypeValue (.TyProjection proj_ty.item_def_id proj_ty.substs),
            outlived_region⟩ required_predicates)
    | .EscapingProjection _ => .ok required_predicates
    | .UnresolvedInferenceVariable _ => .error .not_using_infcx
termination_by 1
decreasing_by simp [Kind.weight]

end

/-- Depth-bounded evaluator for the collector: `none` when the nesting
of recursive calls would exceed `fuel`; structurally recursive, hence
computable by the kernel.  Its loop consumes no fuel — only the
recursive call made for a `Component.Region` does. -/
def collectAux : Nat → Kind → RegionKind → RequiredPredicates →
    Option (Except Bug RequiredPredicates)
  | 0, _, _, _ => none
  | fuel + 1, kind, outlived_region, required_predicates =>
    match is_free_region outlived_region with
    | .error b => some (.error b)
    | .ok free =>
      if !free then
        some (.ok required_predicates)
      else
        match kind with
        | .TypeValue ty =>
          (outlives_components ty).foldl
            (fun acc component =>
              match acc with
              | none => none
              | some (.error b) => some (.error b)
              | some (.ok req) =>
                match component with
                | .Region r => collectAux fuel (.RegionValue r) outlived_region req
                | .Param p =>
                  some (.ok (insertPred ⟨.TypeValue (.TyParam p), outlived_region⟩ req))
                | .Projection pr =>
                  some (.ok (insertPred ⟨.TypeValue (.TyProjection pr.item_def_id pr.substs),
                        outlived_region⟩ req))
                | .EscapingProjection _ => some (.ok req)
                | .UnresolvedInferenceVariable _ => some (.error .not_using_infcx))
            (some (.ok required_predicates))
        | .RegionValue r =>
          match is_free_region r with
          | .error b => some (.error b)
          | .ok rfree =>
            if !rfree then
              some (.ok required_predicates)
            else
              some (.ok (insertPred ⟨kind, outlived_region⟩ required_predicates))

/-! ## Properties of the comparator -/

theorem natCmp_self (a : Nat) : natCmp a a = .eq := by
  simp [natCmp]

theorem natCmp_eq_iff (a b : Nat) : natCmp a b = .eq ↔ a = b := by
  unfold natCmp
  split
  next h => simp; omega
  next h =>
    split
    next h2 => simp [h2]
    next h2 => simp [h2]

theorem natCmp_lt_iff (a b : Nat) : natCmp a b = .lt ↔ a < b := by
  unfold natCmp
  split
  next h => simp [h]
  next h => split <;> simp <;> omega

theorem natCmp_gt_iff (a b : Nat) : natCmp a b = .gt ↔ b < a := by
  unfold natCmp
  split
  next h => simp; omega
  next h => split <;> simp <;> omega

theorem lexCmp_eq_iff : ∀ (as bs : List Nat), lexCmp as bs = .eq ↔ as = bs := by
  intro as
  induction as with
  | nil => intro bs; cases bs <;> simp [lexCmp]
  | cons a as ih =>
    intro bs
    cases bs with
    | nil => simp [lexCmp]
    | cons b bs =>
      cases h : natCmp a b with
      | eq => simp [lexCmp, h, ih bs, (natCmp_eq_iff a b).mp h, natCmp_self]
      | lt =>
        have hne : a ≠ b := fun e => by simp [e, natCmp_self] at h
        simp [lexCmp, h, hne]
      | gt =>
        have hne : a ≠ b := fun e => by simp [e, natCmp_self] at h
        simp [lexCmp, h, hne]

theorem lexCmp_self (as : List Nat) : lexCmp as as = .eq :=
  (lexCmp_eq_iff as as).mpr rfl

theorem lexCmp_gt_iff_lt : ∀ (as bs : List Nat), lexCmp as bs = .gt ↔ lexCmp bs as = .lt := by
  intro as
  induction as with
  | nil => intro bs; cases bs <;> simp [lexCmp]
  | cons a as ih =>
    intro bs
    cases bs with
    | nil => simp [lexCmp]
    | cons b bs =>
      cases h : natCmp a b with
      | eq =>
        have hba : natCmp b a = .eq := by
          rw [natCmp_eq_iff] at h ⊢; omega
        simp [lexCmp, h, hba, ih bs]
      | lt =>
        have hba : natCmp b a = .gt := by
          rw [natCmp_lt_iff] at h; rw [natCmp_gt_iff]; omega
        simp [lexCmp, h, hba]
      | gt =>
        have hba : natCmp b a = .lt := by
          rw [natCmp_gt_iff] at h; rw [natCmp_lt_iff]; omega
        simp [lexCmp, h, hba]

theorem lexCmp_lt_trans :
    ∀ (as bs cs : List Nat), lexCmp as bs = .lt → lexCmp bs cs = .lt →
      lexCmp as cs = .lt := by
  intro as
  induction as with
  | nil =>
    intro bs cs h1 h2
    cases bs with
    | nil => exact h2
    | cons b bs =>
      cases cs with
      | nil => simp [lexCmp] at h2
      | cons c cs => simp [lexCmp]
  | cons a as ih =>
    intro bs cs h1 h2
    cases bs with
    | nil => simp [lexCmp] at h1
    | cons b bs =>
      cases cs with
      | nil => simp [lexCmp] at h2
      | cons c cs =>
        simp only [lexCmp] at h1 h2 ⊢
        cases hab : natCmp a b with
        | gt => simp [hab] at h1
        | eq =>
          cases hbc : natCmp b c with
          | gt => simp [hbc] at h2
          | eq =>
            rw [natCmp_eq_iff] at hab hbc
            subst hab
            subst hbc
            simp only [natCmp_self] at h1 h2 ⊢
            exact ih _ _ h1 h2
          | lt =>
            rw [natCmp_eq_iff] at hab
            subst hab
            simp [hbc]
        | lt =>
          cases hbc : natCmp b c with
          | gt => simp [hbc] at h2
          | eq =>
            rw [natCmp_eq_iff] at hbc
            subst hbc
            simp [hab]
          | lt =>
            rw [natCmp_lt_iff] at hab hbc
            have hac : natCmp a c = .lt := (natCmp_lt_iff a c).mpr (by omega)
            simp [hac]

/-! ## Properties of ordered-set insertion -/

/-- Strict key order between predicates: the sortedness invariant of
the ordered set. -/
def predLt (p q : OutlivesPredicate) : Prop :=
  lexCmp p.encode q.encode = .lt

instance (p q : OutlivesPredicate) : Decidable (predLt p q) := by
  unfold predLt
  infer_instance

/-- A `RequiredPredicates` value is a well-formed ordered set iff it is
strictly sorted by the structural key. -/
def PredsSorted (l : RequiredPredicates) : Prop :=
  List.Pairwise predLt l

instance (l : RequiredPredicates) : Decidable (PredsSorted l) := by
  unfold PredsSorted
  infer_instance

theorem mem_insertPred (p q : OutlivesPredicate) :
    ∀ l, q ∈ insertPred p l → q = p ∨ q ∈ l := by
  intro l
  induction l with
  | nil =>
    intro h
    simp [insertPred] at h
    exact Or.inl h
  | cons r rs ih =>
    intro hq
    simp only [insertPred] at hq
    split at hq
    next =>
      rcases List.mem_cons.mp hq with h | h
      · exact Or.inl h
      · exact Or.inr h
    next => exact Or.inr hq
    next =>
      rcases List.mem_cons.mp hq with h | h
      · exact Or.inr (List.mem_cons.mpr (Or.inl h))
      · rcases ih h with h2 | h2
        · exact Or.inl h2
        · exact Or.inr (List.mem_cons.mpr (Or.inr h2))

theorem mem_insertPred_of_mem (p q : OutlivesPredicate) :
    ∀ l, q ∈ l → q ∈ insertPred p l := by
  intro l
  induction l with
  | nil => intro h; simp at h
  | cons r rs ih =>
    intro hq
    simp only [insertPred]
    split
    next => exact List.mem_cons.mpr (Or.inr hq)
    next => exact hq
    next =>
      rcases List.mem_cons.mp hq with h | h
      · exact List.mem_cons.mpr (Or.inl h)
      · exact List.mem_cons.mpr (Or.inr (ih h))

theorem encMem_insertPred_self (p : OutlivesPredicate) :
    ∀ l, ∃ q ∈ insertPred p l, q.encode = p.encode := by
  intro l
  induction l with
  | nil => exact ⟨p, by simp [insertPred], rfl⟩
  | cons r rs ih =>
    simp only [insertPred]
    split
    next => exact ⟨p, List.mem_cons.mpr (Or.inl rfl), rfl⟩
    next h =>
      exact ⟨r, List.mem_cons.mpr (Or.inl rfl), ((lexCmp_eq_iff _ _).mp h).symm⟩
    next =>
      rcases ih with ⟨q, hq, he⟩
      exact ⟨q, List.mem_cons.mpr (Or.inr hq), he⟩

theorem sorted_insertPred (p : OutlivesPredicate) :
    ∀ l, PredsSorted l → PredsSorted (insertPred p l) := by
  intro l
  induction l with
  | nil =>
    intro _
    simp only [insertPred, PredsSorted]
    exact List.pairwise_singleton _ _
  | cons r rs ih =>
    intro hs
    have hr := List.pairwise_cons.mp hs
    simp only [insertPred]
    split
    next h =>
      refine List.pairwise_cons.mpr ⟨?_, hs⟩
      intro x hx
      rcases List.mem_cons.mp hx with e | hxrs
      · rw [e]; exact h
      · exact lexCmp_lt_trans _ _ _ h (hr.1 x hxrs)
    next h => exact hs
    next h =>
      refine List.pairwise_cons.mpr ⟨?_, ih hr.2⟩
      intro x hx
      rcases mem_insertPred p x rs hx with e | hxrs
      · rw [e]; exact (lexCmp_gt_iff_lt _ _).mp h
      · exact hr.1 x hxrs

theorem insertPred_eq_of_encMem (p : OutlivesPredicate) :
    ∀ l, PredsSorted l → (∃ q ∈ l, q.encode = p.encode) → insertPred p l = l := by
  intro l
  induction l with
  | nil =>
    intro _ h
    simp at h
  | cons r rs ih =>
    intro hs h
    obtain ⟨q, hq, he⟩ := h
    simp only [insertPred]
    split
    next hcmp =>
      exfalso
      rcases List.mem_cons.mp hq with e | hqrs
      · have heq : lexCmp p.encode r.encode = .eq :=
          (lexCmp_eq_iff _ _).mpr (by rw [← he, e])
        rw [heq] at hcmp
        simp at hcmp
      · have h1 : lexCmp r.encode p.encode = .lt := by
          have h2 := (List.pairwise_cons.mp hs).1 q hqrs
          rw [predLt, he] at h2
          exact h2
        have h3 := lexCmp_lt_trans _ _ _ hcmp h1
        rw [lexCmp_self] at h3
        simp at h3
    next hcmp => rfl
    next hcmp =>
      rcases List.mem_cons.mp hq with e | hqrs
      · exfalso
        have heq : lexCmp p.encode r.encode = .eq :=
          (lexCmp_eq_iff _ _).mpr (by rw [← he, e])
        rw [heq] at hcmp
        simp at hcmp
      · rw [ih (List.pairwise_cons.mp hs).2 ⟨q, hqrs, he⟩]

/-! ## Bridging the collector and its depth-bounded evaluator -/

theorem insert_component_error (o : RegionKind) (b : Bug) (c : Component) :
    insert_component o (.error b) c = .error b := by
  rw [insert_component.eq_def]

/-- Closed form of the collector on a `RegionValue` argument (the
branch that makes no recursive call). -/
theorem region_eval (r o : RegionKind) (P : RequiredPredicates) :
    insert_outlives_predicate (.RegionValue r) o P =
      (is_free_region o).bind fun free =>
        if !free then .ok P
        else
          (is_free_region r).bind fun rfree =>
            if !rfree then .ok P
            else .ok (insertPred ⟨.RegionValue r, o⟩ P) := by
  rw [insert_outlives_predicate.eq_def]

theorem foldl_some_bridge {α β : Type} (f : Option α → β → Option α) (g : α → β → α)
    (h : ∀ a c, f (some a) c = some (g a c)) :
    ∀ (cs : List β) (a : α), cs.foldl f (some a) = some (cs.foldl g a) := by
  intro cs
  induction cs with
  | nil => intro a; rfl
  | cons c cs ih =>
    intro a
    rw [List.foldl_cons, List.foldl_cons, h]
    exact ih (g a c)

theorem collectAux_region (f : Nat) (hf : 1 ≤ f) (r o : RegionKind)
    (P : RequiredPredicates) :
    collectAux f (.RegionValue r) o P =
      some (insert_outlives_predicate (.RegionValue r) o P) := by
  cases f with
  | zero => omega
  | succ g =>
    rw [region_eval]
    cases ho : is_free_region o with
    | error b => simp [collectAux, ho, Except.bind]
    | ok free =>
      cases free with
      | false => simp [collectAux, ho, Except.bind]
      | true =>
        cases hr : is_free_region r with
        | error b => simp [collectAux, ho, hr, Except.bind]
        | ok rfree => cases rfree <;> simp [collectAux, ho, hr, Except.bind]

theorem collectAux_ge2 (f : Nat) (hf : 2 ≤ f) (kind : Kind) (o : RegionKind)
    (P : RequiredPredicates) :
    collectAux f kind o P = some (insert_outlives_predicate kind o P) := by
  cases kind with
  | RegionValue r => exact collectAux_region f (by omega) r o P
  | TypeValue ty =>
    cases f with
    | zero => omega
    | succ g =>
      have hg : 1 ≤ g := by omega
      rw [insert_outlives_predicate.eq_def]
      cases ho : is_free_region o with
      | error b => simp [collectAux, ho, Except.bind]
      | ok free =>
        cases free with
        | false => simp [collectAux, ho, Except.bind]
        | true =>
          simp only [collectAux, ho, Bool.not_true, Bool.false_eq_true, if_false,
            Except.bind]
          refine foldl_some_bridge _ _ ?_ (outlives_components ty)
            ((Except.ok P : Except Bug RequiredPredicates))
          intro a c
          cases a with
          | error b => simp [insert_component.eq_def]
          | ok req =>
            cases c <;> simp [insert_component.eq_def, collectAux_region g hg]

/-- The depth-2 evaluator computes the collector on every input. -/
theorem collectAux_spec (kind : Kind) (o : RegionKind) (P : RequiredPredicates) :
    collectAux 2 kind o P = some (insert_outlives_predicate kind o P) :=
  collectAux_ge2 2 (by omega) kind o P

/-! ## Failure classification -/

/-- A region on the Region Classifier's fatal path: every variant other
than `ReStatic`, `ReEarlyBound` and `ReLateBound`. -/
def isIllegalRegion (r : RegionKind) : Bool :=
  match is_free_region r with
  | .error _ => true
  | .ok _ => false

/-- Does a failure value originate from the Region Classifier's fatal
path? -/
def Bug.fromClassifier : Bug → Bool
  | .unexpected_region _ => true
  | .not_using_infcx => false

/-- A component whose processing is a fatal path: a region component
carrying an illegal region variant, or an unresolved inference
component. -/
def Component.fatal : Component → Bool
  | .Region r => isIllegalRegion r
  | .UnresolvedInferenceVariable _ => true
  | _ => false

/-- An escaping-projection component. -/
def Component.isEscaping : Component → Bool
  | .EscapingProjection _ => true
  | _ => false

/-- The inputs on which the collector hits a fatal path: an illegal
outlived region; or, when the outlived region is free, an illegal
region inside the kind (as the `RegionValue` itself or inside a
decomposed region component) or an unresolved inference component. -/
def fatalInput (kind : Kind) (o : RegionKind) : Bool :=
  match is_free_region o with
  | .error _ => true
  | .ok false => false
  | .ok true =>
    match kind with
    | .RegionValue r => isIllegalRegion r
    | .TypeValue ty => (outlives_components ty).any Component.fatal

/-! ## Behaviour of the component loop -/

theorem loop_error (o : RegionKind) (b : Bug) :
    ∀ cs, List.foldl (fun acc c => insert_component o acc c) (.error b) cs = .error b := by
  intro cs
  induction cs with
  | nil => rfl
  | cons c cs ih =>
    rw [List.foldl_cons, insert_component_error]
    exact ih

theorem loop_error_iff (o : RegionKind) (ho : is_free_region o = .ok true) :
    ∀ (cs : List Component) (req : RequiredPredicates),
      (∃ b, List.foldl (fun acc c => insert_component o acc c) (.ok req) cs = .error b)
        ↔ cs.any Component.fatal = true := by
  intro cs
  induction cs with
  | nil =>
    intro req
    simp
  | cons c cs ih =>
    intro req
    rw [List.foldl_cons]
    cases c with
    | Region r =>
      rw [insert_component.eq_def]
      simp only []
      rw [region_eval, ho]
      cases hr : is_free_region r with
      | error b =>
        simp only [Except.bind, Bool.not_true, Bool.false_eq_true, if_false]
        rw [loop_error]
        simp [List.any_cons, Component.fatal, isIllegalRegion, hr]
      | ok rfree =>
        have hfatal : Component.fatal (.Region r) = false := by
          simp [Component.fatal, isIllegalRegion, hr]
        cases rfree with
        | false =>
          simp only [Except.bind, Bool.not_false, if_true]
          rw [List.any_cons, hfatal]
          simpa using ih req
        | true =>
          simp only [Except.bind, Bool.not_true, Bool.false_eq_true, if_false]
          rw [List.any_cons, hfatal]
          simpa using ih (insertPred ⟨.RegionValue r, o⟩ req)
    | Param p =>
      rw [insert_component.eq_def]
      simp only []
      rw [List.any_cons]
      simpa [Component.fatal] using ih (insertPred ⟨.TypeValue (.TyParam p), o⟩ req)
    | Projection pr =>
      rw [insert_component.eq_def]
      simp only []
      rw [List.any_cons]
      simpa [Component.fatal] using
        ih (insertPred ⟨.TypeValue (.TyProjection pr.item_def_id pr.substs), o⟩ req)
    | EscapingProjection pr =>
      rw [insert_component.eq_def]
      simp only []
      rw [List.any_cons]
      simpa [Component.fatal, Component.isEscaping] using ih req
    | UnresolvedInferenceVariable v =>
      rw [insert_component.eq_def]
      simp only [loop_error]
      simp [List.any_cons, Component.fatal]

theorem loop_mem (o : RegionKind) :
    ∀ (cs : List Component) (req fin : RequiredPredicates),
      List.foldl (fun acc c => insert_component o acc c) (.ok req) cs = .ok fin →
      ∀ q ∈ fin, q ∈ req ∨ q.snd = o := by
  intro cs
  induction cs with
  | nil =>
    intro req fin h q hq
    cases h
    exact Or.inl hq
  | cons c cs ih =>
    intro req fin h q hq
    rw [List.foldl_cons] at h
    cases c with
    | Region r =>
      rw [insert_component.eq_def] at h
      simp only [] at h
      rw [region_eval] at h
      cases ho : is_free_region o with
      | error b =>
        rw [ho] at h
        simp only [Except.bind, loop_error] at h
        cases h
      | ok free =>
        rw [ho] at h
        cases free with
        | false =>
          simp only [Except.bind, Bool.not_false, if_true] at h
          exact ih req fin h q hq
        | true =>
          simp only [Except.bind, Bool.not_true, Bool.false_eq_true, if_false] at h
          cases hr : is_free_region r with
          | error b =>
            rw [hr] at h
            simp only [Except.bind, loop_error] at h
            cases h
          | ok rfree =>
            rw [hr] at h
            cases rfree with
            | false =>
              simp only [Except.bind, Bool.not_false, if_true] at h
              exact ih req fin h q hq
            | true =>
              simp only [Except.bind, Bool.not_true, Bool.false_eq_true, if_false] at h
              rcases ih _ fin h q hq with hmem | hsnd
              · rcases mem_insertPred _ q req hmem with e | hmem2
                · exact Or.inr (by rw [e])
                · exact Or.inl hmem2
              · exact Or.inr hsnd
    | Param p =>
      rw [insert_component.eq_def] at h
      simp only [] at h
      rcases ih _ fin h q hq with hmem | hsnd
      · rcases mem_insertPred _ q req hmem with e | hmem2
        · exact Or.inr (by rw [e])
        · exact Or.inl hmem2
      · exact Or.inr hsnd
    | Projection pr =>
      rw [insert_component.eq_def] at h
      simp only [] at h
      rcases ih _ fin h q hq with hmem | hsnd
      · rcases mem_insertPred _ q req hmem with e | hmem2
        · exact Or.inr (by rw [e])
        · exact Or.inl hmem2
      · exact Or.inr hsnd
    | EscapingProjection pr =>
      rw [insert_component.eq_def] at h
      simp only [] at h
      exact ih req fin h q hq
    | UnresolvedInferenceVariable v =>
      rw [insert_component.eq_def] at h
      simp only [] at h
      rw [loop_error] at h
      cases h

theorem loop_escaping (o : RegionKind) :
    ∀ (cs : List Component), (∀ c ∈ cs, c.isEscaping = true) →
      ∀ req, List.foldl (fun acc c => insert_component o acc c) (.ok req) cs = .ok req := by
  intro cs
  induction cs with
  | nil => intro _ req; rfl
  | cons c cs ih =>
    intro hesc req
    have hc := hesc c (List.mem_cons.mpr (Or.inl rfl))
    cases c <;> simp [Component.isEscaping] at hc
    rw [List.foldl_cons, insert_component.eq_def]
    simp only []
    exact ih (fun x hx => hesc x (List.mem_cons.mpr (Or.inr hx))) req

theorem loop_idem (o : RegionKind) :
    ∀ (cs : List Component) (req fin : RequiredPredicates),
      PredsSorted req →
      List.foldl (fun acc c => insert_component o acc c) (.ok req) cs = .ok fin →
      PredsSorted fin ∧ (∀ q ∈ req, q ∈ fin) ∧
        List.foldl (fun acc c => insert_component o acc c) (.ok fin) cs = .ok fin := by
  intro cs
  induction cs with
  | nil =>
    intro req fin hs h
    cases h
    exact ⟨hs, fun q hq => hq, rfl⟩
  | cons c cs ih =>
    intro req fin hs h
    rw [List.foldl_cons] at h
    cases c with
    | Region r =>
      rw [insert_component.eq_def] at h
      simp only [] at h
      rw [region_eval] at h
      cases ho : is_free_region o with
      | error b =>
        rw [ho] at h
        simp only [Except.bind] at h
        rw [loop_error] at h
        cases h
      | ok free =>
        rw [ho] at h
        cases free with
        | false =>
          simp only [Except.bind, Bool.not_false, if_true] at h
          obtain ⟨s1, s2, s3⟩ := ih req fin hs h
          refine ⟨s1, s2, ?_⟩
          rw [List.foldl_cons, insert_component.eq_def]
          simp only []
          rw [region_eval, ho]
          simp only [Except.bind, Bool.not_false, if_true]
          exact s3
        | true =>
          simp only [Except.bind, Bool.not_true, Bool.false_eq_true, if_false] at h
          cases hr : is_free_region r with
          | error b =>
            rw [hr] at h
            simp only [Except.bind] at h
            rw [loop_error] at h
            cases h
          | ok rfree =>
            rw [hr] at h
            cases rfree with
            | false =>
              simp only [Except.bind, Bool.not_false, if_true] at h
              obtain ⟨s1, s2, s3⟩ := ih req fin hs h
              refine ⟨s1, s2, ?_⟩
              rw [List.foldl_cons, insert_component.eq_def]
              simp only []
              rw [region_eval, ho, hr]
              simp only [Except.bind, Bool.not_true, Bool.false_eq_true, if_false,
                Bool.not_false, if_true]
              exact s3
            | true =>
              simp only [Except.bind, Bool.not_true, Bool.false_eq_true, if_false] at h
              obtain ⟨s1, s2, s3⟩ :=
                ih _ fin (sorted_insertPred ⟨.RegionValue r, o⟩ req hs) h
              refine ⟨s1, fun q hq => s2 q (mem_insertPred_of_mem _ q req hq), ?_⟩
              rw [List.foldl_cons, insert_component.eq_def]
              simp only []
              rw [region_eval, ho, hr]
              simp only [Except.bind, Bool.not_true, Bool.false_eq_true, if_false]
              obtain ⟨w, hw, hwe⟩ := encMem_insertPred_self ⟨.RegionValue r, o⟩ req
              rw [insertPred_eq_of_encMem _ fin s1 ⟨w, s2 w hw, hwe⟩]
              exact s3
    | Param p =>
      rw [insert_component.eq_def] at h
      simp only [] at h
      obtain ⟨s1, s2, s3⟩ :=
        ih _ fin (sorted_insertPred ⟨.TypeValue (.TyParam p), o⟩ req hs) h
      refine ⟨s1, fun q hq => s2 q (mem_insertPred_of_mem _ q req hq), ?_⟩
      rw [List.foldl_cons, insert_component.eq_def]
      simp only []
      obtain ⟨w, hw, hwe⟩ := encMem_insertPred_self ⟨.TypeValue (.TyParam p), o⟩ req
      rw [insertPred_eq_of_encMem _ fin s1 ⟨w, s2 w hw, hwe⟩]
      exact s3
    | Projection pr =>
      rw [insert_component.eq_def] at h
      simp only [] at h
      obtain ⟨s1, s2, s3⟩ :=
        ih _ fin
          (sorted_insertPred ⟨.TypeValue (.TyProjection pr.item_def_id pr.substs), o⟩ req hs) h
      refine ⟨s1, fun q hq => s2 q (mem_insertPred_of_mem _ q req hq), ?_⟩
      rw [List.foldl_cons, insert_component.eq_def]
      simp only []
      obtain ⟨w, hw, hwe⟩ :=
        encMem_insertPred_self ⟨.TypeValue (.TyProjection pr.item_def_id pr.substs), o⟩ req
      rw [insertPred_eq_of_encMem _ fin s1 ⟨w, s2 w hw, hwe⟩]
      exact s3
    | EscapingProjection pr =>
      rw [insert_component.eq_def] at h
      simp only [] at h
      obtain ⟨s1, s2, s3⟩ := ih req fin hs h
      refine ⟨s1, s2, ?_⟩
      rw [List.foldl_cons, insert_component.eq_def]
      simp only []
      exact s3
    | UnresolvedInferenceVariable v =>
      rw [insert_component.eq_def] at h
      simp only [] at h
      rw [loop_error] at h
      cases h

/-! ## The claims -/

/-- Claim C1, counterexample to the claim as stated: a kind whose
decomposition holds an `UnresolvedInferenceVariable` component makes
`insert_outlives_predicate` fail with the `not_using_infcx` fatal
error, which does not originate from the Region Classifier's fatal
path — so the classifier's path is not the only possible failure. -/
theorem collect_infcx_counterexample :
    insert_outlives_predicate
        (.TypeValue (.TyDecl [.UnresolvedInferenceVariable 0])) .ReStatic [] =
      .error .not_using_infcx ∧
      Bug.fromClassifier .not_using_infcx = false :=
  ⟨Option.some.inj ((collectAux_spec _ _ _).symm.trans rfl), rfl⟩

/-- Claim C1 (amended): `insert_outlives_predicate` fails exactly on
the two fatal paths — classifying an illegal region variant (as the
outlived region, as the `RegionValue` kind, or inside a decomposed
region component), or encountering an unresolved inference component;
no other input raises a failure. -/
theorem collect_failure_characterization (kind : Kind) (o : RegionKind)
    (P : RequiredPredicates) :
    (∃ b, insert_outlives_predicate kind o P = .error b) ↔ fatalInput kind o = true := by
  rw [insert_outlives_predicate.eq_def]
  unfold fatalInput
  cases ho : is_free_region o with
  | error b => simp [Except.bind]
  | ok free =>
    cases free with
    | false => simp [Except.bind]
    | true =>
      simp only [Except.bind, Bool.not_true, Bool.false_eq_true, if_false]
      cases kind with
      | RegionValue r =>
        simp only []
        unfold isIllegalRegion
        cases hr : is_free_region r with
        | error b => simp [Except.bind]
        | ok rfree => cases rfree <;> simp [Except.bind]
      | TypeValue ty =>
        exact loop_error_iff o ho (outlives_components ty) P

/-- Claim C2: if every predicate of `P` has a free region as its second
element, and `collect` completes without a fatal error, then the
resulting set still contains no predicate whose second element is a
non-free region. -/
theorem collect_preserves_free_snd (kind : Kind) (o : RegionKind)
    (P P' : RequiredPredicates)
    (hP : ∀ p ∈ P, is_free_region p.snd = .ok true)
    (h : insert_outlives_predicate kind o P = .ok P') :
    ∀ p ∈ P', is_free_region p.snd = .ok true := by
  intro p hp
  rw [insert_outlives_predicate.eq_def] at h
  cases ho : is_free_region o with
  | error b =>
    rw [ho] at h
    simp only [Except.bind] at h
    cases h
  | ok free =>
    rw [ho] at h
    cases free with
    | false =>
      simp only [Except.bind, Bool.not_false, if_true] at h
      injection h with h2
      subst h2
      exact hP p hp
    | true =>
      simp only [Except.bind, Bool.not_true, Bool.false_eq_true, if_false] at h
      cases kind with
      | RegionValue r =>
        simp only [] at h
        cases hr : is_free_region r with
        | error b =>
          rw [hr] at h
          simp only [Except.bind] at h
          cases h
        | ok rfree =>
          rw [hr] at h
          cases rfree with
          | false =>
            simp only [Except.bind, Bool.not_false, if_true] at h
            injection h with h2
            subst h2
            exact hP p hp
          | true =>
            simp only [Except.bind, Bool.not_true, Bool.false_eq_true, if_false] at h
            injection h with h2
            subst h2
            rcases mem_insertPred _ p P hp with e | hm
            · rw [e]
              exact ho
            · exact hP p hm
      | TypeValue ty =>
        simp only [] at h
        rcases loop_mem o (outlives_components ty) P P' h p hp with hm | hsnd
        · exact hP p hm
        · rw [hsnd]
          exact ho

/-- Witness for C2 at a concrete instantiation. -/
theorem collect_preserves_free_snd_witness :
    is_free_region
        (⟨.RegionValue (.ReEarlyBound 0), .ReStatic⟩ : OutlivesPredicate).snd = .ok true :=
  collect_preserves_free_snd (.RegionValue (.ReEarlyBound 0)) .ReStatic []
    [⟨.RegionValue (.ReEarlyBound 0), .ReStatic⟩]
    (by simp)
    (Option.some.inj ((collectAux_spec _ _ _).symm.trans rfl))
    ⟨.RegionValue (.ReEarlyBound 0), .ReStatic⟩
    (by simp)

/-- Claim C3: running `collect` twice in succession yields the same
final set as running it once — the second run succeeds and changes
nothing, since insertion of an already-present predicate is a no-op. -/
theorem collect_idempotent (kind : Kind) (o : RegionKind) (P P' : RequiredPredicates)
    (hs : PredsSorted P) (h : insert_outlives_predicate kind o P = .ok P') :
    insert_outlives_predicate kind o P' = .ok P' := by
  rw [insert_outlives_predicate.eq_def] at h
  rw [insert_outlives_predicate.eq_def]
  cases ho : is_free_region o with
  | error b =>
    rw [ho] at h
    simp only [Except.bind] at h
    cases h
  | ok free =>
    rw [ho] at h
    cases free with
    | false =>
      simp only [Except.bind, Bool.not_false, if_true]
    | true =>
      simp only [Except.bind, Bool.not_true, Bool.false_eq_true, if_false] at h ⊢
      cases kind with
      | RegionValue r =>
        simp only [] at h ⊢
        cases hr : is_free_region r with
        | error b =>
          rw [hr] at h
          simp only [Except.bind] at h
          cases h
        | ok rfree =>
          rw [hr] at h
          cases rfree with
          | false =>
            simp only [Except.bind, Bool.not_false, if_true]
          | true =>
            simp only [Except.bind, Bool.not_true, Bool.false_eq_true, if_false] at h ⊢
            injection h with h2
            subst h2
            obtain ⟨w, hw, hwe⟩ := encMem_insertPred_self ⟨.RegionValue r, o⟩ P
            rw [insertPred_eq_of_encMem _ _ (sorted_insertPred _ P hs) ⟨w, hw, hwe⟩]
      | TypeValue ty =>
        simp only [] at h ⊢
        exact (loop_idem o (outlives_components ty) P P' hs h).2.2

/-- Witness for C3 at a concrete instantiation. -/
theorem collect_idempotent_witness :
    insert_outlives_predicate (.RegionValue (.ReEarlyBound 0)) .ReStatic
        [⟨.RegionValue (.ReEarlyBound 0), .ReStatic⟩] =
      .ok [⟨.RegionValue (.ReEarlyBound 0), .ReStatic⟩] :=
  collect_idempotent (.RegionValue (.ReEarlyBound 0)) .ReStatic []
    [⟨.RegionValue (.ReEarlyBound 0), .ReStatic⟩]
    List.Pairwise.nil
    (Option.some.inj ((collectAux_spec _ _ _).symm.trans rfl))

/-- Claim C4: a kind decomposing to `[RegionComponent(EarlyBound B),
TypeParamComponent(U)]` with outlived region `EarlyBound(A)` produces,
from the empty set, exactly the two predicates `(U-as-type, A)` and
`(RegionValue(B), A)` (listed in the canonical key order of the set). -/
theorem collect_two_components_exact (b u a : Nat) :
    insert_outlives_predicate
        (.TypeValue (.TyDecl [.Region (.ReEarlyBound b), .Param u]))
        (.ReEarlyBound a) [] =
      .ok [⟨.TypeValue (.TyParam u), .ReEarlyBound a⟩,
           ⟨.RegionValue (.ReEarlyBound b), .ReEarlyBound a⟩] :=
  Option.some.inj ((collectAux_spec _ _ _).symm.trans rfl)

/-- Claim C5: `kind = RegionValue(EarlyBound(B))` with
`outlived = EarlyBound(A)` produces, from the empty set, exactly the
singleton `{ (RegionValue(B), A) }`. -/
theorem collect_region_singleton (b a : Nat) :
    insert_outlives_predicate (.RegionValue (.ReEarlyBound b)) (.ReEarlyBound a) [] =
      .ok [⟨.RegionValue (.ReEarlyBound b), .ReEarlyBound a⟩] :=
  Option.some.inj ((collectAux_spec _ _ _).symm.trans rfl)

/-- Claim C6: when the decomposition yields only escaping-projection
components, any successful `collect` leaves the predicate set
unchanged. -/
theorem collect_escaping_only_unchanged (cs : List Component) (o : RegionKind)
    (P P' : RequiredPredicates)
    (hesc : ∀ c ∈ cs, c.isEscaping = true)
    (h : insert_outlives_predicate (.TypeValue (.TyDecl cs)) o P = .ok P') :
    P' = P := by
  rw [insert_outlives_predicate.eq_def] at h
  cases ho : is_free_region o with
  | error b =>
    rw [ho] at h
    simp only [Except.bind] at h
    cases h
  | ok free =>
    rw [ho] at h
    cases free with
    | false =>
      simp only [Except.bind, Bool.not_false, if_true] at h
      injection h with h2
      exact h2.symm
    | true =>
      simp only [Except.bind, Bool.not_true, Bool.false_eq_true, if_false] at h
      simp only [outlives_components] at h
      rw [loop_escaping o cs hesc P] at h
      injection h with h2
      exact h2.symm

/-- Witness for C6 at a concrete instantiation. -/
theorem collect_escaping_only_unchanged_witness :
    ([] : RequiredPredicates) = [] :=
  collect_escaping_only_unchanged [.EscapingProjection ⟨0, 0⟩] .ReStatic [] []
    (by decide)
    (Option.some.inj ((collectAux_spec _ _ _).symm.trans rfl))

/-- Claim C7: a `RegionValue(LateBound(..))` kind with any free
outlived region is silently dropped: the set is returned unchanged and
no failure is raised, unlike the fatal-error region variants. -/
theorem collect_late_bound_kind_silent (d i : Nat) (o : RegionKind)
    (P : RequiredPredicates) (ho : is_free_region o = .ok true) :
    insert_outlives_predicate (.RegionValue (.ReLateBound d i)) o P = .ok P := by
  rw [region_eval, ho]
  rfl

/-- Witness for C7 at a concrete instantiation. -/
theorem collect_late_bound_kind_silent_witness :
    is_free_region .ReStatic = .ok true ∧
      insert_outlives_predicate (.RegionValue (.ReLateBound 0 0)) .ReStatic [] = .ok [] :=
  ⟨rfl, collect_late_bound_kind_silent 0 0 .ReStatic [] rfl⟩

/-- Claim C8: every region on the Region Classifier's fatal path (the
non-free variants other than late-bound), passed as the outlived
region with any kind and any set, makes `collect` insert nothing: the
classifier's fatal error is raised immediately, before the kind or the
set is even inspected. -/
theorem collect_illegal_outlived_inserts_nothing (r : RegionKind) (kind : Kind)
    (P : RequiredPredicates) (hr : isIllegalRegion r = true) :
    insert_outlives_predicate kind r P = .error (.unexpected_region r) := by
  rw [insert_outlives_predicate.eq_def]
  cases r <;> simp [isIllegalRegion, is_free_region, Except.bind] at hr ⊢

/-- Witness for C8 at a concrete instantiation. -/
theorem collect_illegal_outlived_inserts_nothing_witness :
    isIllegalRegion .ReErased = true ∧
      insert_outlives_predicate (.RegionValue (.ReEarlyBound 0)) .ReErased [] =
        .error (.unexpected_region .ReErased) :=
  ⟨rfl, collect_illegal_outlived_inserts_nothing .ReErased (.RegionValue (.ReEarlyBound 0)) [] rfl⟩

/-- Claim C9: `collect` terminates on every input, with recursion depth
bounded by 2: the depth-2 bounded evaluator never exhausts its fuel and
computes exactly `insert_outlives_predicate` — the one recursive call
happens for a `RegionComponent`, with a `RegionValue` kind that itself
makes no further recursive call. -/
theorem collect_depth_two_terminates (kind : Kind) (o : RegionKind)
    (P : RequiredPredicates) :
    collectAux 2 kind o P = some (insert_outlives_predicate kind o P) :=
  collectAux_spec kind o P

/-- Claim C10: when the outlived region is late-bound (classified not
free), `collect` returns the set unchanged for EVERY kind — the kind is
never inspected, so even a kind whose decomposition would contain an
unresolved inference component or an illegal region variant produces a
silent no-op rather than a failure. -/
theorem collect_nonfree_outlived_early_return (kind : Kind) (d i : Nat)
    (P : RequiredPredicates) :
    insert_outlives_predicate kind (.ReLateBound d i) P = .ok P := by
  rw [insert_outlives_predicate.eq_def]
  rfl

end Outlives
